import Mathlib

/-!
Verification of the yutani Wayland library.

This file gives a shallow embedding, in Lean, of the parts of the
repository relevant to the wire codec, the ring buffers, the object lease
discipline, server ID allocation and socket-path discovery, together with
theorems settling the specified properties.

Conventions used throughout the embedding:
* machine integers (`u32`, `u16`, `usize`) are modelled as `Nat`; the
  places where Rust performs a truncating cast or wrapping arithmetic are
  modelled with an explicit `% 2^w`, and bitwise operators (`&&&`, `>>>`)
  are kept as in the source;
* byte order is native-endian in the source; the embedding fixes
  little-endian (the order used on every target the crate supports);
* a Rust method taking `&mut self` becomes a Lean function returning the
  new state next to the return value;
* uninitialised storage (`MaybeUninit<T>`, the byte array of a fresh
  buffer) is modelled as storage filled with `default` junk values; the
  verified operations only ever read initialised slots.

The repository contains two generations of the same crate: the `wire.rs`
generation (namespace `Wire` below) and the older `lib.rs`/`message.rs`/
`server.rs` generation (namespaces `Lib`, `Msg`, `Srv` below).
-/

namespace Wire

/-- Embedding of `RingBuffer<T>` from `src/wire.rs`: a circular FIFO queue
backed by a power-of-two sized slab, with a `front` write index and a
`back` read index.  The Rust backing store is a `Box<[MaybeUninit<T>]>`;
it is modelled as a `List α` whose uninitialised slots hold `default`. -/
structure RingBuffer (α : Type) where
  data : List α
  front : Nat
  back : Nat
deriving Repr

variable {α : Type} [Inhabited α]

/-- `RingBuffer::capacity`. -/
def RingBuffer.capacity (rb : RingBuffer α) : Nat := rb.data.length

/-- `RingBuffer::increment`: advance an index with the power-of-two mask. -/
def RingBuffer.increment (rb : RingBuffer α) (value : Nat) : Nat :=
  (value + 1) &&& (rb.data.length - 1)

/-- `RingBuffer::len`. -/
def RingBuffer.len (rb : RingBuffer α) : Nat :=
  if rb.front < rb.back then rb.front + rb.data.length - rb.back
  else rb.front - rb.back

/-- `RingBuffer::free`. -/
def RingBuffer.free (rb : RingBuffer α) : Nat :=
  rb.data.length -
    (if rb.front < rb.back then rb.front + rb.data.length - rb.back
     else rb.front - rb.back)

/-- `RingBuffer::push`: insert an element, or return it back if there is
no space.  The pair is (returned value, new state). -/
def RingBuffer.push (rb : RingBuffer α) (value : α) : Option α × RingBuffer α :=
  let next := rb.increment rb.front
  if next = rb.back then (some value, rb)
  else (none, { rb with data := rb.data.set rb.front value, front := next })

/-- `RingBuffer::pop`: remove the oldest item and return it. -/
def RingBuffer.pop (rb : RingBuffer α) : Option α × RingBuffer α :=
  if rb.front = rb.back then (none, rb)
  else (some (rb.data.getD rb.back default), { rb with back := rb.increment rb.back })

/-- `RingBuffer::get`: reference the item at `index`, where index 0 is the
oldest item. -/
def RingBuffer.get (rb : RingBuffer α) (index : Nat) : Option α :=
  let i := (rb.back + index) &&& (rb.data.length - 1)
  if index < rb.len then some (rb.data.getD i default) else none

/-- `RingBuffer::is_empty`. -/
def RingBuffer.is_empty (rb : RingBuffer α) : Bool := rb.front == rb.back

/-- `RingBuffer::is_full` — note the body in the source is identical to
`is_empty`. -/
def RingBuffer.is_full (rb : RingBuffer α) : Bool := rb.front == rb.back

/-- `RingBuffer::new`: a fresh buffer of the given capacity (the source
panics unless the capacity is a power of two; the well-formedness is
tracked by `RingBuffer.Inv` below). -/
def RingBuffer.new (capacity : Nat) : RingBuffer α :=
  { data := List.replicate capacity default, front := 0, back := 0 }

/-- Well-formedness of a ring buffer state: the capacity is the power of
two demanded by `RingBuffer::new`, and both indices are in range (which
every source operation maintains via the mask). -/
def RingBuffer.Inv (rb : RingBuffer α) : Prop :=
  (∃ k, rb.data.length = 2 ^ k) ∧ rb.front < rb.data.length ∧ rb.back < rb.data.length

/-- The abstract queue contents of a ring buffer: the elements from the
read index to the write index in FIFO order.  This matches
`RingBuffer::get` at every index below `len`. -/
def RingBuffer.absQ (rb : RingBuffer α) : List α :=
  (List.range rb.len).map fun i => rb.data.getD ((rb.back + i) % rb.data.length) default

/-- Push a whole list of values; the boolean records whether every push
succeeded (returned `None` in the source). -/
def RingBuffer.pushAll (rb : RingBuffer α) (l : List α) : RingBuffer α × Bool :=
  l.foldl (fun acc v =>
    let r := acc.1.push v
    (r.2, acc.2 && r.1.isNone)) (rb, true)

/-- Drain a ring buffer by repeated `pop`, collecting the dequeued values;
`fuel` bounds the number of pops. -/
def RingBuffer.drain : Nat → RingBuffer α → List α
  | 0, _ => []
  | fuel + 1, rb =>
    match rb.pop with
    | (none, _) => []
    | (some v, rb') => v :: RingBuffer.drain fuel rb'

/-- Embedding of `WlError` from `src/wire.rs` (the `Cow` description is a
plain string). -/
structure WlError where
  object : Nat
  error : Nat
  description : String
deriving DecidableEq, Repr

/-- `WlError::CORRUPT`. -/
def WlError.CORRUPT : WlError :=
  { object := 1, error := 1, description := "Protocol violation or malformed request." }

/-- `WlError::NON_NULLABLE`. -/
def WlError.NON_NULLABLE : WlError :=
  { object := 1, error := 1, description := "Argument is not nullable." }

/-- `WlError::UTF_8`. -/
def WlError.UTF_8 : WlError :=
  { object := 1, error := 1, description := "Strings must be valid UTF-8." }

/-- `WlError::NO_FD`.  Defined in the source with this description but
never referenced by any function of the crate. -/
def WlError.NO_FD : WlError :=
  { object := 1, error := 1, description := "Expected a file descriptor but none were received." }

/-- Embedding of the `Message` header struct from `src/wire.rs`
(`object: Id` is a `NonZeroU32`, modelled as a `Nat` that the parser
guarantees non-zero). -/
structure Message where
  object : Nat
  opcode : Nat
  size : Nat
deriving DecidableEq, Repr

/-- Embedding of `Stream` from `src/wire.rs`: the four buffers around one
connection socket (the socket itself plays no part in the verified
operations).  File descriptors are modelled by their integer values. -/
structure Stream where
  rx_msg : RingBuffer Nat
  tx_msg : List Nat
  rx_fd : RingBuffer Nat
  tx_fd : RingBuffer Nat

/-- `Stream::new`: fresh buffers with the capacities fixed by the source
(1024 words, 8 file descriptors each way). -/
def Stream.new : Stream :=
  { rx_msg := RingBuffer.new 1024, tx_msg := [],
    rx_fd := RingBuffer.new 8, tx_fd := RingBuffer.new 8 }

/-- The declared byte size of a frame, taken from the high 16 bits of the
header word exactly as `Stream::message` computes it
(`((req & 0xFFFF_0000) >> 16) as u16`; the cast is the identity because
the masked shift is already below `2^16`). -/
def hdrSize (req : Nat) : Nat := (req &&& 0xFFFF0000) >>> 16

/-- The opcode of a frame, from the low 16 bits of the header word
(`(req & 0xFFFF) as u16`). -/
def hdrOpcode (req : Nat) : Nat := req &&& 0xFFFF

/-- Embedding of `Stream::message` from `src/wire.rs`.  Peeks the header
word at queue index 1; returns `none` when no (or not yet a whole)
message is buffered, `some (Except.error e)` for a fatal error and
`some (Except.ok m)` for a parsed header.  The second component is the
stream state afterwards.  The `pop().unwrap()` in the source cannot
panic on the taken path because the length check guarantees at least
`size / 4 ≥ 2` buffered words; the impossible branch is mapped to
`(none, s)`. -/
def Stream.message (s : Stream) : Option (Except WlError Message) × Stream :=
  match s.rx_msg.get 1 with
  | none => (none, s)
  | some req =>
    let size := hdrSize req
    if size < 8 then (some (Except.error WlError.CORRUPT), s)
    else if s.rx_msg.len < size / 4 then (none, s)
    else
      let opcode := hdrOpcode req
      match s.rx_msg.pop with
      | (none, _) => (none, s)
      | (some w, rx1) =>
        if w = 0 then
          (some (Except.error WlError.NON_NULLABLE), { s with rx_msg := rx1 })
        else
          let rx2 := (rx1.pop).2
          (some (Except.ok { object := w, opcode := opcode, size := size }),
            { s with rx_msg := rx2 })

/-- Embedding of `Stream::file` from `src/wire.rs`:
`self.rx_fd.pop().ok_or(WlError::CORRUPT)`. -/
def Stream.file (s : Stream) : Except WlError Nat × Stream :=
  match s.rx_fd.pop with
  | (none, rx) => (Except.error WlError.CORRUPT, { s with rx_fd := rx })
  | (some fd, rx) => (Except.ok fd, { s with rx_fd := rx })

/-- `Stream::u32`: pop one word, `Corrupt` when the buffer is empty. -/
def Stream.u32 (s : Stream) : Except WlError Nat × Stream :=
  match s.rx_msg.pop with
  | (none, rx) => (Except.error WlError.CORRUPT, { s with rx_msg := rx })
  | (some w, rx) => (Except.ok w, { s with rx_msg := rx })

/-- `Stream::send_u32`: append one word to the transmit buffer. -/
def Stream.send_u32 (s : Stream) (w : Nat) : Stream :=
  { s with tx_msg := s.tx_msg ++ [w] }

end Wire

/-- The four bytes of a 32-bit word, least significant first (the
native order of every target the crate supports). -/
def wordLeBytes (w : Nat) : List Nat :=
  [w % 256, w / 256 % 256, w / 2 ^ 16 % 256, w / 2 ^ 24 % 256]

/-- Flatten a list of 32-bit words into their bytes. -/
def wordsToBytesLe (ws : List Nat) : List Nat := (ws.map wordLeBytes).flatten

/-- `u32::from_ne_bytes` (little-endian); missing bytes read as zero. -/
def u32FromLeBytes (bs : List Nat) : Nat :=
  bs.getD 0 0 + bs.getD 1 0 * 256 + bs.getD 2 0 * 2 ^ 16 + bs.getD 3 0 * 2 ^ 24

/-- Group a byte list into 32-bit words, zero-padding the final partial
word (the layout produced by the unsafe copies in `Stream::send_string`
and `Stream::send_bytes`). -/
def bytesToWordsLe : List Nat → List Nat
  | [] => []
  | a :: b :: c :: d :: rest =>
    (a + b * 256 + c * 2 ^ 16 + d * 2 ^ 24) :: bytesToWordsLe rest
  | bs => [u32FromLeBytes bs]

/-- Split a byte list into its exact 4-byte chunks (as words) and the
remainder, mirroring `chunks_exact(4)` plus `remainder()` in
`Message::push_str`. -/
def chunks4 : List Nat → List Nat × List Nat
  | a :: b :: c :: d :: rest =>
    let cr := chunks4 rest
    ((a + b * 256 + c * 2 ^ 16 + d * 2 ^ 24) :: cr.1, cr.2)
  | bs => ([], bs)

/-- UTF-8 validity of a byte sequence, as enforced by
`String::from_utf8` in `Stream::string` (RFC 3629: no overlong forms, no
surrogates, maximum U+10FFFF). -/
def validUtf8 : List Nat → Bool
  | [] => true
  | b :: rest =>
    if b < 0x80 then validUtf8 rest
    else if b < 0xC2 then false
    else if b ≤ 0xDF then
      match rest with
      | c1 :: r => if 0x80 ≤ c1 ∧ c1 ≤ 0xBF then validUtf8 r else false
      | _ => false
    else if b ≤ 0xEF then
      match rest with
      | c1 :: c2 :: r =>
        let lo := if b = 0xE0 then 0xA0 else 0x80
        let hi := if b = 0xED then 0x9F else 0xBF
        if lo ≤ c1 ∧ c1 ≤ hi ∧ 0x80 ≤ c2 ∧ c2 ≤ 0xBF then validUtf8 r else false
      | _ => false
    else if b ≤ 0xF4 then
      match rest with
      | c1 :: c2 :: c3 :: r =>
        let lo := if b = 0xF0 then 0x90 else 0x80
        let hi := if b = 0xF4 then 0x8F else 0xBF
        if lo ≤ c1 ∧ c1 ≤ hi ∧ 0x80 ≤ c2 ∧ c2 ≤ 0xBF ∧ 0x80 ≤ c3 ∧ c3 ≤ 0xBF then
          validUtf8 r
        else false
      | _ => false
    else false

namespace Wire

/-- Embedding of `Stream::bytes` from `src/wire.rs`: pop a length word,
then move `⌈len/4⌉` words out of the receive buffer and return their
first `len` bytes.  The two raw `copy_from_nonoverlapping` branches of
the source (contiguous and wrapped) are modelled by their net effect:
the bytes of the words at queue indices `0 ≤ i < take_len`, truncated to
`len`, with the read index advanced by `take_len` using the same mask
expression as the source. -/
def Stream.bytes (s : Stream) : Except WlError (List Nat) × Stream :=
  match s.rx_msg.pop with
  | (none, rx) => (Except.error WlError.CORRUPT, { s with rx_msg := rx })
  | (some len, rx) =>
    if len = 0 then (Except.ok [], { s with rx_msg := rx })
    else
      let take_len := (len >>> 2) + (if len &&& 0b11 ≠ 0 then 1 else 0)
      if rx.len < take_len then (Except.error WlError.CORRUPT, { s with rx_msg := rx })
      else
        let words := (List.range take_len).map fun i => (rx.get i).getD 0
        let bs := (wordsToBytesLe words).take len
        (Except.ok bs,
          { s with rx_msg :=
            { rx with back := (rx.back + take_len) &&& (rx.data.length - 1) } })

/-- Embedding of `Stream::string` from `src/wire.rs`: read a byte
argument, require a terminating NUL, return `none` for the empty
(null) string and otherwise the UTF-8-validated bytes of the string. -/
def Stream.string (s : Stream) : Except WlError (Option (List Nat)) × Stream :=
  match s.bytes with
  | (Except.error e, s1) => (Except.error e, s1)
  | (Except.ok bs, s1) =>
    match bs.getLast? with
    | some 0 =>
      let content := bs.dropLast
      if content.length = 0 then (Except.ok none, s1)
      else if validUtf8 content then (Except.ok (some content), s1)
      else (Except.error WlError.UTF_8, s1)
    | _ => (Except.error WlError.CORRUPT, s1)

/-- Embedding of `Stream::send_string` from `src/wire.rs`.  For `None` a
single zero word is sent.  For a string of `len` bytes the source
computes the length word as `(len + 4) & !3` (`!3 = 0xFFFF_FFFC` on
`u32`), sends it, and then appends `(len + 4) & !3` bytes: it zeroes the
last appended word and copies the string's bytes from the start, so the
appended region is exactly the string padded with NUL bytes to the next
word boundary; that net effect is modelled here. -/
def Stream.send_string (s : Stream) (str : Option (List Nat)) : Stream :=
  match str with
  | none => s.send_u32 0
  | some str =>
    let len := str.length
    let lenw := (len + 4) &&& 0xFFFFFFFC
    { s with tx_msg :=
        s.tx_msg ++ [lenw] ++ bytesToWordsLe (str ++ List.replicate (lenw - len) 0) }

end Wire

namespace Lib

/-- `get_socket_path` from `src/lib.rs` (module `common`): the two
environment variables are passed in as the function's environment. -/
def get_socket_path (wayland_display xdg_runtime_dir : Option String) : String :=
  match wayland_display with
  | some path => path
  | none =>
    match xdg_runtime_dir with
    | some path => path ++ "/wayland-0"
    | none => "wayland-0"

/-- `RingBuffer::SIZE` from `src/lib.rs`. -/
def SIZE : Nat := 4096

/-- `RingBuffer::MASK` from `src/lib.rs`. -/
def MASK : Nat := SIZE - 1

/-- Embedding of the byte-oriented `RingBuffer` from `src/lib.rs` (the
older generation of the crate): a fixed 4096-byte slab with a `writer`
and a `reader` index. -/
structure RingBuffer where
  buffer : List Nat
  writer : Nat
  reader : Nat
deriving Repr

/-- `RingBuffer::new`. -/
def RingBuffer.new : RingBuffer :=
  { buffer := List.replicate SIZE 0, writer := 0, reader := 0 }

/-- `RingBuffer::len`. -/
def RingBuffer.len (rb : RingBuffer) : Nat :=
  if rb.reader ≤ rb.writer then rb.writer - rb.reader
  else SIZE - rb.reader + rb.writer

/-- `RingBuffer::copy_into_raw` (and hence `copy`): read `count` bytes
starting at the reader without advancing it; fails when fewer than
`count` bytes are buffered.  The two memcpy branches of the source are
modelled by their net effect, indexing modulo `SIZE`. -/
def RingBuffer.copy (rb : RingBuffer) (count : Nat) : Option (List Nat) :=
  if rb.len < count then none
  else some ((List.range count).map fun i => rb.buffer.getD ((rb.reader + i) % SIZE) 0)

/-- `RingBuffer::add_reader`: advance the reader by at most `len`,
masked. -/
def RingBuffer.add_reader (rb : RingBuffer) (count : Nat) : RingBuffer :=
  let c := min count rb.len
  { rb with reader := (rb.reader + c) &&& MASK }

/-- `RingBuffer::take_into_raw` / `take`: copy then advance the reader. -/
def RingBuffer.take (rb : RingBuffer) (count : Nat) : Option (List Nat) × RingBuffer :=
  match rb.copy count with
  | none => (none, rb)
  | some bs => (some bs, rb.add_reader count)

/-- The `std::io::ErrorKind` values that appear in the embedded code. -/
inductive IoErrorKind where
  | InvalidData
deriving DecidableEq, Repr

/-- Embedding of `DispatchError` from `src/lib.rs`, restricted to the
variants the verified code constructs.  (`message.rs` constructs
`DispatchError::IOError`, a variant present in the generation of
`lib.rs` that `message.rs` was written against.) -/
inductive DispatchError where
  | ObjectNull
  | ObjectExists (id : Nat)
  | ObjectNotFound (id : Nat)
  | ExpectedArgument (data_type : String)
  | IOError (kind : IoErrorKind)
deriving DecidableEq, Repr

end Lib

namespace Msg

/-- Embedding of `Message` from `src/message.rs`: a decoded message with
untyped word arguments and file-descriptor arguments. -/
structure Message where
  object : Nat
  opcode : Nat
  args : List Nat
  fds : List Nat
deriving DecidableEq, Repr

/-- Embedding of `Message::read` from `src/message.rs`: take the two
header words, reject a declared size that is not a multiple of 4 or is
below 8, then take the argument words.  A failed `take` makes the source
return early through `?`; that path is modelled as `none` (its exact
error value is produced by a conversion outside this file's sources).
`message_size` is `(p >> 16) as u16` — the cast is the identity since
`p < 2^32` — and `opcode` is `p as u16`. -/
def Message.read (messages : Lib.RingBuffer) :
    Option (Except Lib.DispatchError Message) × Lib.RingBuffer :=
  match messages.take 4 with
  | (none, m1) => (none, m1)
  | (some objBytes, m1) =>
    let object := u32FromLeBytes objBytes
    match m1.take 4 with
    | (none, m2) => (none, m2)
    | (some pBytes, m2) =>
      let p := u32FromLeBytes pBytes
      let message_size := p >>> 16
      let opcode := p % 65536
      if message_size &&& 0b11 ≠ 0 ∨ message_size < 8 then
        (some (Except.error (Lib.DispatchError.IOError Lib.IoErrorKind.InvalidData)), m2)
      else
        match m2.take ((message_size / 4 - 2) * 4) with
        | (none, m3) => (none, m3)
        | (some argBytes, m3) =>
          (some (Except.ok
            { object := object, opcode := opcode,
              args := bytesToWordsLe argBytes, fds := [] }), m3)

/-- Embedding of `Message::push_str` from `src/message.rs`: push the
length word `str.len() + 1` (counting the appended NUL terminator), the
exact 4-byte chunks of the string, and a final word holding the
remainder bytes followed by the NUL terminator and zero padding. -/
def Message.push_str (m : Message) (str : List Nat) : Message :=
  let cr := chunks4 str
  { m with args := m.args ++ [str.length + 1] ++ cr.1 ++ [u32FromLeBytes cr.2] }

end Msg

namespace Srv

/-- The `SystemError` variants from `src/lib.rs` used by the embedded
server code. -/
inductive SystemError where
  | ObjectLeased (id : Nat)
  | CorruptMessage
deriving DecidableEq, Repr

/-- Embedding of `Client::new_id` from `src/server.rs`:

    while self.objects.contains_key(&self.serial) {
        self.serial = self.serial.wrapping_add(1);
    }
    self.serial

`objects` is the set of IDs in the client's object table and `serial`
the counter field; the returned ID is the final value of the counter,
which is also left as the new value of the `serial` field.  The Rust
loop has no bound; `fuel` makes it total (`none` models divergence,
which the source only reaches when every ID is occupied). -/
def new_id (objects : List Nat) : Nat → Nat → Option Nat
  | 0, _ => none
  | fuel + 1, serial =>
    if serial ∈ objects then new_id objects fuel ((serial + 1) % 2 ^ 32)
    else some serial

/-- The observable state of one object cell together with ghost
bookkeeping.  `leased` mirrors the `leased` flag of `LeaseBox` in
`src/server.rs` and `freed` records whether `Box::from_raw` has
reclaimed the cell.  `residentAlive` and `liveLeases` are ghost fields
counting which handles (the `Resident`, and `Lease` values) currently
exist; the drop glue of a handle may only run while the handle exists. -/
structure CellState where
  leased : Bool
  residentAlive : Bool
  liveLeases : Nat
  freed : Bool
deriving DecidableEq, Repr

/-- The state directly after `Resident::new`: flag clear, cell allocated,
no lease outstanding. -/
def CellState.init : CellState :=
  { leased := false, residentAlive := true, liveLeases := 0, freed := false }

/-- Embedding of `Resident::lease` from `src/server.rs`: fail with
`SystemError::ObjectLeased(id)` when the flag is set, otherwise set the
flag and hand out a lease. -/
def CellState.leaseOp (c : CellState) (id : Nat) : Except SystemError CellState :=
  if c.leased then Except.error (SystemError.ObjectLeased id)
  else Except.ok { c with leased := true, liveLeases := c.liveLeases + 1 }

/-- Embedding of `Drop for Resident` from `src/server.rs`: if the cell is
leased, clear the flag (deferring the free to the lease); otherwise free
the cell. -/
def CellState.residentDrop (c : CellState) : CellState :=
  if c.leased then { c with leased := false, residentAlive := false }
  else { c with residentAlive := false, freed := true }

/-- Embedding of `Drop for Lease` from `src/server.rs`: if the flag is
still set (the `Resident` is still alive), clear it; otherwise the
`Resident` has already dropped, so free the cell. -/
def CellState.leaseDrop (c : CellState) : CellState :=
  if c.leased then { c with leased := false, liveLeases := c.liveLeases - 1 }
  else { c with liveLeases := c.liveLeases - 1, freed := true }

/-- The cell states reachable from `Resident::new` by leasing, dropping
the resident and dropping a lease — each step only when the
corresponding handle exists. -/
inductive Reach : CellState → Prop where
  | init : Reach CellState.init
  | lease (c : CellState) (id : Nat) (c' : CellState) :
      Reach c → c.residentAlive = true → c.leaseOp id = Except.ok c' → Reach c'
  | dropResident (c : CellState) :
      Reach c → c.residentAlive = true → Reach c.residentDrop
  | dropLease (c : CellState) :
      Reach c → 1 ≤ c.liveLeases → Reach c.leaseDrop

end Srv

set_option maxRecDepth 100000
set_option linter.unusedSectionVars false

/-! Concrete program states used by counterexamples and witnesses. -/

/-- A stream whose receive buffer holds a frame for object 1 with header
word `10 <<< 16` — a declared size of 10 bytes, which is not a multiple
of 4 — followed by one extra word. -/
def misalignedStream : Wire.Stream :=
  { Wire.Stream.new with
    rx_msg := (Wire.Stream.new.rx_msg.pushAll [1, 655360, 0]).1 }

/-- A stream whose receive buffer holds a frame for object 1 with a
declared size of 4 bytes (header word `4 <<< 16`). -/
def shortSizeStream : Wire.Stream :=
  { Wire.Stream.new with
    rx_msg := (Wire.Stream.new.rx_msg.pushAll [1, 262144]).1 }

/-- A byte ring buffer holding a wire frame for object 1 whose declared
size is 10 (bytes `[0,0,10,0]` for the second header word), with the
reader at the given position. -/
def misalignedByteBufferAt (reader : Nat) : Lib.RingBuffer :=
  { buffer := [1, 0, 0, 0, 0, 0, 10, 0, 0, 0, 0, 0] ++ List.replicate 4084 0,
    writer := 12, reader := reader }

/-- The byte ring buffer above with nothing consumed yet. -/
def misalignedByteBuffer : Lib.RingBuffer := misalignedByteBufferAt 0

/-- A stream whose receive buffer holds the well-formed wire encoding of
the string "a": length word 2 (one byte plus the NUL terminator) and one
payload word with the bytes `['a', 0, 0, 0]`. -/
def strStream : Wire.Stream :=
  { Wire.Stream.new with rx_msg := (Wire.Stream.new.rx_msg.pushAll [2, 97]).1 }

/-- A stream whose receive buffer holds the two header words of a frame
with declared size 12 and opcode 5 — the body word is still missing. -/
def partialFrameStream : Wire.Stream :=
  { Wire.Stream.new with rx_msg := (Wire.Stream.new.rx_msg.pushAll [1, 786437]).1 }

/-- The cell state after `Resident::new` followed by one successful
`lease`: flag set, resident alive, one live lease. -/
def leasedCell : Srv.CellState :=
  { leased := true, residentAlive := true, liveLeases := 1, freed := false }

/-- The cell state after additionally dropping the `Resident`: flag clear
again, yet the lease is still alive and the cell is not freed. -/
def droppedResidentCell : Srv.CellState :=
  { leased := false, residentAlive := false, liveLeases := 1, freed := false }

/-- A capacity-2 ring buffer holding its maximum of one item. -/
def oneItemRb : Wire.RingBuffer Nat := ((Wire.RingBuffer.new 2).push 5).2

/-! Theorems. -/

namespace Wire

variable {α : Type} [Inhabited α]

theorem RingBuffer.Inv.cap_pos {rb : RingBuffer α} (h : rb.Inv) : 0 < rb.data.length := by
  obtain ⟨⟨k, hk⟩, -, -⟩ := h
  rw [hk]
  exact pow_pos (by norm_num) k

theorem RingBuffer.mask_eq_mod {rb : RingBuffer α} (h : rb.Inv) (x : Nat) :
    x &&& (rb.data.length - 1) = x % rb.data.length := by
  obtain ⟨⟨k, hk⟩, -, -⟩ := h
  rw [hk, Nat.and_pow_two_sub_one_eq_mod]

theorem RingBuffer.increment_eq {rb : RingBuffer α} (h : rb.Inv) (v : Nat) :
    rb.increment v = (v + 1) % rb.data.length := by
  unfold RingBuffer.increment
  exact mask_eq_mod h _

theorem RingBuffer.len_lt {rb : RingBuffer α} (h : rb.Inv) : rb.len < rb.data.length := by
  have hC := h.cap_pos
  obtain ⟨-, hf, hb⟩ := h
  unfold RingBuffer.len
  split <;> omega

theorem RingBuffer.len_zero_iff {rb : RingBuffer α} (h : rb.Inv) :
    rb.len = 0 ↔ rb.front = rb.back := by
  obtain ⟨-, hf, hb⟩ := h
  unfold RingBuffer.len
  split <;> omega

theorem RingBuffer.absQ_length (rb : RingBuffer α) : rb.absQ.length = rb.len := by
  simp [RingBuffer.absQ]

theorem RingBuffer.back_add_len {rb : RingBuffer α} (h : rb.Inv) :
    (rb.back + rb.len) % rb.data.length = rb.front := by
  obtain ⟨-, hf, hb⟩ := h
  unfold RingBuffer.len
  split
  · have : rb.back + (rb.front + rb.data.length - rb.back) =
        rb.front + rb.data.length := by omega
    rw [this, Nat.add_mod_right, Nat.mod_eq_of_lt hf]
  · have : rb.back + (rb.front - rb.back) = rb.front := by omega
    rw [this, Nat.mod_eq_of_lt hf]

theorem RingBuffer.get_eq_absQ {rb : RingBuffer α} (h : rb.Inv) (i : Nat) :
    rb.get i = rb.absQ[i]? := by
  simp only [RingBuffer.get, RingBuffer.absQ]
  by_cases hi : i < rb.len
  · rw [if_pos hi, List.getElem?_map, List.getElem?_range hi]
    simp [mask_eq_mod h]
  · rw [if_neg hi, List.getElem?_map,
      List.getElem?_eq_none (by simpa using hi)]
    rfl

theorem RingBuffer.pop_spec {rb : RingBuffer α} (h : rb.Inv) (hne : rb.front ≠ rb.back) :
    rb.pop = (some (rb.data.getD rb.back default),
      { rb with back := (rb.back + 1) % rb.data.length }) ∧
    (rb.pop).2.Inv ∧
    (rb.pop).2.len = rb.len - 1 ∧
    rb.absQ = rb.data.getD rb.back default :: (rb.pop).2.absQ := by
  have hC := h.cap_pos
  obtain ⟨hpow, hf, hb⟩ := h
  have hmod : rb.increment rb.back = (rb.back + 1) % rb.data.length :=
    increment_eq ⟨hpow, hf, hb⟩ _
  have hpop : rb.pop = (some (rb.data.getD rb.back default),
      { rb with back := (rb.back + 1) % rb.data.length }) := by
    unfold RingBuffer.pop
    rw [if_neg hne, hmod]
  have hlen : ({ rb with back := (rb.back + 1) % rb.data.length } :
      RingBuffer α).len = rb.len - 1 := by
    show RingBuffer.len _ = RingBuffer.len _ - 1
    unfold RingBuffer.len
    simp only
    rcases Nat.lt_or_ge (rb.back + 1) rb.data.length with h1 | h1
    · rw [Nat.mod_eq_of_lt h1]
      split <;> split <;> omega
    · have hbeq : rb.back + 1 = rb.data.length := by omega
      rw [hbeq, Nat.mod_self]
      split <;> split <;> omega
  have hinv : ({ rb with back := (rb.back + 1) % rb.data.length } :
      RingBuffer α).Inv :=
    ⟨hpow, hf, Nat.mod_lt _ hC⟩
  refine ⟨hpop, ?_, ?_, ?_⟩
  · rw [hpop]; exact hinv
  · rw [hpop]; exact hlen
  · rw [hpop]
    show rb.absQ = _ :: RingBuffer.absQ _
    unfold RingBuffer.absQ
    simp only [hlen]
    obtain ⟨m, hm⟩ : ∃ m, rb.len = m + 1 := by
      have : rb.len ≠ 0 := fun h0 => hne ((len_zero_iff ⟨hpow, hf, hb⟩).mp h0)
      exact ⟨rb.len - 1, by omega⟩
    rw [hm]
    simp only [Nat.add_sub_cancel]
    rw [List.range_succ_eq_map, List.map_cons, List.map_map]
    congr 1
    · rw [Nat.add_zero, Nat.mod_eq_of_lt hb]
    · apply List.map_congr_left
      intro i _
      simp only [Function.comp_apply, Nat.succ_eq_add_one]
      rw [Nat.mod_add_mod]
      congr 2
      omega

theorem RingBuffer.push_full_iff {rb : RingBuffer α} (h : rb.Inv) :
    (rb.front + 1) % rb.data.length = rb.back ↔ rb.len = rb.data.length - 1 := by
  have hC := h.cap_pos
  obtain ⟨-, hf, hb⟩ := h
  unfold RingBuffer.len
  rcases Nat.lt_or_ge (rb.front + 1) rb.data.length with h1 | h1
  · rw [Nat.mod_eq_of_lt h1]
    split <;> omega
  · have hfeq : rb.front + 1 = rb.data.length := by omega
    rw [hfeq, Nat.mod_self]
    split <;> omega

theorem RingBuffer.push_full {rb : RingBuffer α} (h : rb.Inv)
    (hfull : rb.len = rb.data.length - 1) (v : α) :
    rb.push v = (some v, rb) := by
  unfold RingBuffer.push
  rw [increment_eq h, if_pos ((push_full_iff h).mpr hfull)]

theorem RingBuffer.push_spec {rb : RingBuffer α} (h : rb.Inv)
    (hnf : rb.len + 1 < rb.data.length) (v : α) :
    rb.push v = (none,
      { rb with data := rb.data.set rb.front v,
                front := (rb.front + 1) % rb.data.length }) ∧
    (rb.push v).2.Inv ∧
    (rb.push v).2.len = rb.len + 1 ∧
    (rb.push v).2.absQ = rb.absQ ++ [v] ∧
    (rb.push v).2.data.length = rb.data.length := by
  have hC := h.cap_pos
  have hlenlt := len_lt h
  obtain ⟨hpow, hf, hb⟩ := h
  have hinv : rb.Inv := ⟨hpow, hf, hb⟩
  have hne : (rb.front + 1) % rb.data.length ≠ rb.back := by
    intro hcontra
    have := (push_full_iff hinv).mp hcontra
    omega
  have hpush : rb.push v = (none,
      { rb with data := rb.data.set rb.front v,
                front := (rb.front + 1) % rb.data.length }) := by
    unfold RingBuffer.push
    rw [increment_eq hinv, if_neg hne]
  set rb' : RingBuffer α :=
    { rb with data := rb.data.set rb.front v,
              front := (rb.front + 1) % rb.data.length } with hrb'
  have hcap : rb'.data.length = rb.data.length := by
    simp [hrb', List.length_set]
  have hlen : rb'.len = rb.len + 1 := by
    have hnf2 : (if rb.front < rb.back then rb.front + rb.data.length - rb.back
        else rb.front - rb.back) + 1 < rb.data.length := hnf
    show RingBuffer.len _ = RingBuffer.len _ + 1
    unfold RingBuffer.len
    simp only [hrb', List.length_set]
    rcases Nat.lt_or_ge (rb.front + 1) rb.data.length with h1 | h1
    · rw [Nat.mod_eq_of_lt h1]
      split at hnf2 <;> split_ifs <;> omega
    · have hfeq : rb.front + 1 = rb.data.length := by omega
      rw [hfeq, Nat.mod_self]
      split at hnf2 <;> split_ifs <;> omega
  have hinv' : rb'.Inv := by
    refine ⟨?_, ?_, ?_⟩
    · rw [hcap]; exact hpow
    · rw [hcap]
      exact Nat.mod_lt _ hC
    · rw [hcap]
      simp [hrb', hb]
  have hfrontloc : (rb.back + rb.len) % rb.data.length = rb.front :=
    back_add_len hinv
  have habs : rb'.absQ = rb.absQ ++ [v] := by
    unfold RingBuffer.absQ
    rw [hlen, hcap]
    have hback : rb'.back = rb.back := rfl
    rw [hback, List.range_succ, List.map_append, List.map_singleton]
    congr 1
    · apply List.map_congr_left
      intro i hi
      have hi' : i < rb.len := by simpa using hi
      have hne2 : rb.front ≠ (rb.back + i) % rb.data.length := by
        intro hcontra
        have h1 : (rb.back + i) % rb.data.length =
            (rb.back + rb.len) % rb.data.length := by
          rw [hfrontloc, ← hcontra]
        have h2 : i % rb.data.length = rb.len % rb.data.length :=
          Nat.ModEq.add_left_cancel' rb.back h1
        rw [Nat.mod_eq_of_lt (by omega), Nat.mod_eq_of_lt (by omega)] at h2
        omega
      show (rb.data.set rb.front v).getD _ default = _
      rw [List.getD_eq_getElem?_getD, List.getElem?_set_ne hne2,
        ← List.getD_eq_getElem?_getD]
    · have hv : (rb.data.set rb.front v).getD
          ((rb.back + rb.len) % rb.data.length) default = v := by
        rw [hfrontloc, List.getD_eq_getElem?_getD, List.getElem?_set_self hf]
        rfl
      show [(rb.data.set rb.front v).getD ((rb.back + rb.len) % rb.data.length)
        default] = [v]
      rw [hv]
  rw [hpush]
  exact ⟨rfl, hinv', hlen, habs, hcap⟩

theorem RingBuffer.pushAll_spec {rb : RingBuffer α} (l : List α) (h : rb.Inv)
    (hroom : rb.len + l.length < rb.data.length) :
    (rb.pushAll l).2 = true ∧
    (rb.pushAll l).1.Inv ∧
    (rb.pushAll l).1.len = rb.len + l.length ∧
    (rb.pushAll l).1.absQ = rb.absQ ++ l ∧
    (rb.pushAll l).1.data.length = rb.data.length := by
  induction l generalizing rb with
  | nil => simpa [RingBuffer.pushAll] using h
  | cons x xs ih =>
    have hnf : rb.len + 1 < rb.data.length := by
      simp only [List.length_cons] at hroom
      omega
    obtain ⟨hpush, hinv', hlen', habs', hcap'⟩ := push_spec h hnf x
    have hstep : rb.pushAll (x :: xs) = (rb.push x).2.pushAll xs := by
      unfold RingBuffer.pushAll
      rw [List.foldl_cons]
      congr 1
      rw [hpush]
      rfl
    rw [hstep]
    have hroom' : (rb.push x).2.len + xs.length < (rb.push x).2.data.length := by
      rw [hlen', hcap']
      simp only [List.length_cons] at hroom
      omega
    obtain ⟨hall, hinv2, hlen2, habs2, hcap2⟩ := ih hinv' hroom'
    refine ⟨hall, hinv2, ?_, ?_, ?_⟩
    · rw [hlen2, hlen']
      simp [List.length_cons]
      omega
    · rw [habs2, habs']
      simp
    · rw [hcap2, hcap']

theorem RingBuffer.drain_absQ {rb : RingBuffer α} (h : rb.Inv) :
    RingBuffer.drain rb.len rb = rb.absQ := by
  generalize hn : rb.len = n
  induction n generalizing rb with
  | zero =>
    have : rb.absQ.length = 0 := by rw [absQ_length, hn]
    rw [List.length_eq_zero] at this
    rw [this]
    rfl
  | succ m ih =>
    have hne : rb.front ≠ rb.back := by
      intro hcontra
      rw [(len_zero_iff h).mpr hcontra] at hn
      omega
    obtain ⟨hpop, hinv', hlen', habs'⟩ := pop_spec h hne
    have hstep : RingBuffer.drain (m + 1) rb =
        match rb.pop with
        | (none, _) => []
        | (some v, rb') => v :: RingBuffer.drain m rb' := rfl
    rw [hstep, hpop]
    show rb.data.getD rb.back default ::
        RingBuffer.drain m { rb with back := (rb.back + 1) % rb.data.length } = rb.absQ
    rw [hpop] at hinv' hlen' habs'
    rw [habs']
    congr 1
    have hm : ({ rb with back := (rb.back + 1) % rb.data.length } :
        RingBuffer α).len = m := by
      rw [hlen']
      omega
    exact ih hinv' hm

theorem RingBuffer.get_some_lt {rb : RingBuffer α} {i : Nat} {x : α}
    (hx : rb.get i = some x) : i < rb.len := by
  simp only [RingBuffer.get] at hx
  by_cases hi : i < rb.len
  · exact hi
  · rw [if_neg hi] at hx
    cases hx

theorem RingBuffer.get_zero {rb : RingBuffer α} (h : rb.Inv) (hlt : 0 < rb.len) :
    rb.get 0 = some (rb.data.getD rb.back default) := by
  have hb := h.2.2
  simp only [RingBuffer.get]
  rw [if_pos hlt, mask_eq_mod h, Nat.add_zero, Nat.mod_eq_of_lt hb]

/-- `Stream::message` on a stream whose buffer holds a complete,
well-formed frame parses exactly the buffered header. -/
theorem stream_message_parses (s : Stream) (req obj : Nat)
    (hinv : s.rx_msg.Inv)
    (hreq : s.rx_msg.get 1 = some req)
    (hsz : ¬ hdrSize req < 8)
    (hlen : ¬ s.rx_msg.len < hdrSize req / 4)
    (hobj : s.rx_msg.get 0 = some obj)
    (hobj0 : ¬ obj = 0) :
    (Stream.message s).1 =
      some (Except.ok { object := obj, opcode := hdrOpcode req, size := hdrSize req }) := by
  have h1len : 1 < s.rx_msg.len := RingBuffer.get_some_lt hreq
  have hne : s.rx_msg.front ≠ s.rx_msg.back := by
    intro hc
    have := (RingBuffer.len_zero_iff hinv).mpr hc
    omega
  have hback : s.rx_msg.get 0 = some (s.rx_msg.data.getD s.rx_msg.back default) :=
    RingBuffer.get_zero hinv (by omega)
  have hval : s.rx_msg.data.getD s.rx_msg.back default = obj :=
    Option.some.inj (hback.symm.trans hobj)
  obtain ⟨hpop, -, -, -⟩ := RingBuffer.pop_spec hinv hne
  rw [hval] at hpop
  simp only [Stream.message, hreq]
  rw [if_neg hsz, if_neg hlen, hpop]
  simp only
  rw [if_neg hobj0]

end Wire

/-- Invariant of every reachable cell state: at most one lease is alive;
while the resident is alive the flag tracks the live lease exactly; a
dropped resident always leaves the flag clear; and the cell is freed
precisely when both handles are gone. -/
theorem Srv.reach_invariant (c : Srv.CellState) (h : Srv.Reach c) :
    c.liveLeases ≤ 1 ∧
    (c.residentAlive = true → (c.leased = true ↔ c.liveLeases = 1)) ∧
    (c.residentAlive = false → c.leased = false) ∧
    (c.freed = true ↔ c.residentAlive = false ∧ c.liveLeases = 0) := by
  induction h with
  | init => simp [Srv.CellState.init]
  | lease c id c' hc halive hop ih =>
    obtain ⟨h1, h2, h3, h4⟩ := ih
    rcases c with ⟨l, a, n, f⟩
    unfold Srv.CellState.leaseOp at hop
    rcases l with _ | _
    · simp only [Bool.false_eq_true, if_false] at hop
      obtain rfl := (Except.ok.inj hop).symm
      simp_all
      omega
    · simp at hop
  | dropResident c hc halive ih =>
    obtain ⟨h1, h2, h3, h4⟩ := ih
    rcases c with ⟨l, a, n, f⟩
    unfold Srv.CellState.residentDrop
    rcases l with _ | _ <;> (simp_all; try omega)
  | dropLease c hc hlease ih =>
    obtain ⟨h1, h2, h3, h4⟩ := ih
    rcases c with ⟨l, a, n, f⟩
    unfold Srv.CellState.leaseDrop
    rcases l with _ | _ <;> rcases a with _ | _ <;> (simp_all; try omega)

/-- C5 (confirmed): dropping a `Resident` while its cell is leased does
not free the cell, and the subsequent drop of the outstanding `Lease`
then frees it; dropping a `Resident` with no lease outstanding frees the
cell immediately. -/
theorem deferred_free (c : Srv.CellState) (h : Srv.Reach c)
    (halive : c.residentAlive = true) :
    (c.leased = true →
      c.residentDrop.freed = false ∧ c.residentDrop.leaseDrop.freed = true) ∧
    (c.leased = false → c.residentDrop.freed = true) := by
  obtain ⟨h1, h2, h3, h4⟩ := Srv.reach_invariant c h
  have hf : c.freed = false := by
    rcases hfr : c.freed with _ | _
    · rfl
    · exact absurd (h4.mp hfr).1 (by simp [halive])
  constructor
  · intro hl
    unfold Srv.CellState.residentDrop Srv.CellState.leaseDrop
    simp [hl, hf]
  · intro hl
    unfold Srv.CellState.residentDrop
    simp [hl]

/-- C5 witness: the deferred-free behaviour at the concrete reachable
state with one outstanding lease. -/
theorem deferred_free_witness :
    Srv.Reach leasedCell ∧ leasedCell.residentAlive = true ∧
    ((leasedCell.leased = true →
        leasedCell.residentDrop.freed = false ∧
        leasedCell.residentDrop.leaseDrop.freed = true) ∧
     (leasedCell.leased = false → leasedCell.residentDrop.freed = true)) :=
  have hr : Srv.Reach leasedCell :=
    Srv.Reach.lease Srv.CellState.init 1 leasedCell Srv.Reach.init rfl rfl
  ⟨hr, rfl, deferred_free leasedCell hr rfl⟩

/-- C6 counterexample: after `lease` followed by dropping the `Resident`,
the cell still has exactly one live lease but its `leased` flag is
false, refuting "the flag is true iff exactly one Lease referring to the
cell is alive". -/
theorem lease_flag_false_with_live_lease :
    Srv.Reach droppedResidentCell ∧
    droppedResidentCell.liveLeases = 1 ∧
    droppedResidentCell.leased = false := by
  refine ⟨?_, rfl, rfl⟩
  have h1 : Srv.Reach leasedCell :=
    Srv.Reach.lease Srv.CellState.init 1 leasedCell Srv.Reach.init rfl rfl
  have h2 := Srv.Reach.dropResident leasedCell h1 rfl
  simpa [Srv.CellState.residentDrop, leasedCell, droppedResidentCell] using h2

/-- C6 (amended): while the `Resident` is still alive, the `leased` flag
is true iff exactly one `Lease` is alive (and never more than one lease
exists); a second lease attempt while the flag is set fails with
`ObjectLeased`.  After the `Resident` has been dropped the flag is clear
even though the outstanding lease may still be alive. -/
theorem lease_flag_discipline (c : Srv.CellState) (id : Nat) (h : Srv.Reach c) :
    c.liveLeases ≤ 1 ∧
    (c.residentAlive = true → (c.leased = true ↔ c.liveLeases = 1)) ∧
    (c.leased = true →
      c.leaseOp id = Except.error (Srv.SystemError.ObjectLeased id)) := by
  obtain ⟨h1, h2, h3, h4⟩ := Srv.reach_invariant c h
  refine ⟨h1, h2, ?_⟩
  intro hl
  unfold Srv.CellState.leaseOp
  simp [hl]

/-- C6 witness: the lease discipline at the concrete reachable state with
one outstanding lease. -/
theorem lease_flag_discipline_witness :
    Srv.Reach leasedCell ∧
    (leasedCell.liveLeases ≤ 1 ∧
     (leasedCell.residentAlive = true →
       (leasedCell.leased = true ↔ leasedCell.liveLeases = 1)) ∧
     (leasedCell.leased = true →
       leasedCell.leaseOp 2 = Except.error (Srv.SystemError.ObjectLeased 2))) :=
  have hr : Srv.Reach leasedCell :=
    Srv.Reach.lease Srv.CellState.init 1 leasedCell Srv.Reach.init rfl rfl
  ⟨hr, lease_flag_discipline leasedCell 2 hr⟩

/-- C2: reading a file descriptor from a stream whose `rx_fd` buffer is
empty returns `WlError::CORRUPT` ("Protocol violation or malformed
request."), not the `WlError::NO_FD` value the source defines for this
situation — `NO_FD` is never used by the crate. -/
theorem stream_file_empty_returns_corrupt :
    (Wire.Stream.file Wire.Stream.new).1 = Except.error Wire.WlError.CORRUPT ∧
    Wire.WlError.CORRUPT ≠ Wire.WlError.NO_FD :=
  ⟨rfl, by decide⟩

/-- C3: decoding the well-formed wire string "a" (length word `L+1 = 2`)
succeeds, but re-encoding it with `Stream::send_string` emits the padded
length `(L+4) & !3 = 4` as the length word, so the round trip is not
byte-identical and the length word is not `L+1`; the older generation's
`Message::push_str` does emit `L+1 = 2`. -/
theorem send_string_length_word_mismatch :
    (Wire.Stream.string strStream).1 = Except.ok (some [97]) ∧
    (Wire.Stream.send_string Wire.Stream.new (some [97])).tx_msg = [4, 97] ∧
    (Msg.Message.push_str { object := 1, opcode := 0, args := [], fds := [] }
      [97]).args = [2, 97] ∧
    (4 : Nat) ≠ [97].length + 1 :=
  ⟨rfl, rfl, rfl, by decide⟩

/-- C4 counterexample: with an empty object table and the counter at 0,
`new_id` returns 0 and leaves the counter at 0, so the immediately
following call returns 0 again — the values are not strictly increasing;
and from a counter at `u32::MAX` (with that ID occupied) the counter
wraps to 0, not to `0xFF000000`. -/
theorem new_id_repeats_and_wraps_to_zero :
    Srv.new_id [] 1 0 = some 0 ∧ ¬ (0 : Nat) < 0 ∧
    Srv.new_id [4294967295] 2 4294967295 = some 0 ∧ (0 : Nat) ≠ 0xFF000000 :=
  ⟨by decide, by decide, by decide, by decide⟩

/-- C4 (amended): `new_id` returns an ID that is not currently in the
object table, and it leaves the counter at the returned value, so every
further call with no insertion in between returns the same ID (the
sequence is constant, hence non-decreasing but not strictly increasing);
the counter advances by wrapping addition modulo `2^32`, wrapping from
`u32::MAX` to 0. -/
theorem new_id_fixpoint (objects : List Nat) (fuel fuel' serial v : Nat)
    (h : Srv.new_id objects fuel serial = some v) (hf : 1 ≤ fuel') :
    v ∉ objects ∧ Srv.new_id objects fuel' v = some v := by
  induction fuel generalizing serial with
  | zero => simp [Srv.new_id] at h
  | succ n ih =>
    rw [Srv.new_id] at h
    by_cases hm : serial ∈ objects
    · rw [if_pos hm] at h
      exact ih _ h
    · rw [if_neg hm] at h
      obtain rfl : serial = v := Option.some.inj h
      refine ⟨hm, ?_⟩
      obtain ⟨m, rfl⟩ : ∃ m, fuel' = m + 1 := ⟨fuel' - 1, by omega⟩
      rw [Srv.new_id, if_neg hm]

/-- C4 witness: from counter 0 with ID 0 occupied, `new_id` skips to 1;
the follow-up call returns 1 again. -/
theorem new_id_fixpoint_witness :
    Srv.new_id [0] 2 0 = some 1 ∧ 1 ≤ 1 ∧
    (1 ∉ [0] ∧ Srv.new_id [0] 1 1 = some 1) :=
  ⟨by decide, by decide, new_id_fixpoint [0] 2 1 0 1 (by decide) (by decide)⟩

/-- C9 counterexample: with neither environment variable set,
`get_socket_path` returns the relative path "wayland-0" instead of
failing; and a relative `WAYLAND_DISPLAY` is returned verbatim, not
joined to `XDG_RUNTIME_DIR`. -/
theorem socket_path_fallback_not_fail :
    Lib.get_socket_path none none = "wayland-0" ∧
    Lib.get_socket_path (some "wayland-1") (some "/run/user/1000") = "wayland-1" ∧
    "wayland-1" ≠ "/run/user/1000" ++ "/wayland-0" :=
  ⟨rfl, rfl, by decide⟩

/-- C9 (amended): `get_socket_path` returns `$WAYLAND_DISPLAY` verbatim
when it is set (it is never joined to `$XDG_RUNTIME_DIR`); otherwise
`$XDG_RUNTIME_DIR/wayland-0` when that variable is set; otherwise the
relative fallback "wayland-0" — the function cannot fail. -/
theorem get_socket_path_cases (wd xdg : Option String) (p x : String) :
    (wd = some p → Lib.get_socket_path wd xdg = p) ∧
    (wd = none → xdg = some x → Lib.get_socket_path wd xdg = x ++ "/wayland-0") ∧
    (wd = none → xdg = none → Lib.get_socket_path wd xdg = "wayland-0") := by
  refine ⟨?_, ?_, ?_⟩
  · rintro rfl
    rfl
  · rintro rfl rfl
    rfl
  · rintro rfl rfl
    rfl

/-- C9 witness: the three branches at concrete environments. -/
theorem get_socket_path_cases_witness :
    ((none : Option String) = some "p" →
      Lib.get_socket_path none (some "/run/user/1") = "p") ∧
    ((none : Option String) = none → some "/run/user/1" = some "/run/user/1" →
      Lib.get_socket_path none (some "/run/user/1") = "/run/user/1" ++ "/wayland-0") ∧
    ((none : Option String) = none → (some "/run/user/1" : Option String) = none →
      Lib.get_socket_path none (some "/run/user/1") = "wayland-0") :=
  get_socket_path_cases none (some "/run/user/1") "p" "/run/user/1"


/-- C1 counterexample: `Stream::message` parses and returns a frame whose
declared size is 10 — not a multiple of 4 — instead of reporting
`Corrupt`: the multiple-of-4 check is absent from `Stream::message`. -/
theorem stream_message_accepts_misaligned_size :
    (Wire.Stream.message misalignedStream).1 =
      some (Except.ok { object := 1, opcode := 0, size := 10 }) ∧
    ¬ (10 : Nat) % 4 = 0 :=
  ⟨rfl, by decide⟩

/-- C1 (amended): `Stream::message` reports `Corrupt` when the declared
size from the header's high 16 bits is below 8 (but it performs no
multiple-of-4 check); `Message::read` rejects a declared size that is
not a multiple of 4 or is below 8 with its `InvalidData` error, never
returning a message for such a frame. -/
theorem message_size_validation
    (s : Wire.Stream) (req : Nat)
    (hreq : s.rx_msg.get 1 = some req) (hsz : Wire.hdrSize req < 8)
    (rb m1 m2 : Lib.RingBuffer) (bs1 bs2 : List Nat)
    (h1 : rb.take 4 = (some bs1, m1)) (h2 : m1.take 4 = (some bs2, m2))
    (hbad : (u32FromLeBytes bs2 >>> 16) &&& 0b11 ≠ 0 ∨
      u32FromLeBytes bs2 >>> 16 < 8) :
    (Wire.Stream.message s).1 = some (Except.error Wire.WlError.CORRUPT) ∧
    (Msg.Message.read rb).1 =
      some (Except.error (Lib.DispatchError.IOError Lib.IoErrorKind.InvalidData)) := by
  constructor
  · simp only [Wire.Stream.message, hreq]
    rw [if_pos hsz]
  · simp only [Msg.Message.read, h1, h2]
    rw [if_pos hbad]

/-- C1 witness: a buffered frame with declared size 4 makes
`Stream::message` report `Corrupt`, and a buffered frame with declared
size 10 makes `Message::read` report `InvalidData`. -/
theorem message_size_validation_witness :
    shortSizeStream.rx_msg.get 1 = some 262144 ∧
    Wire.hdrSize 262144 < 8 ∧
    misalignedByteBuffer.take 4 = (some [1, 0, 0, 0], misalignedByteBufferAt 4) ∧
    (misalignedByteBufferAt 4).take 4 =
      (some [0, 0, 10, 0], misalignedByteBufferAt 8) ∧
    ((u32FromLeBytes [0, 0, 10, 0] >>> 16) &&& 0b11 ≠ 0 ∨
      u32FromLeBytes [0, 0, 10, 0] >>> 16 < 8) ∧
    ((Wire.Stream.message shortSizeStream).1 =
        some (Except.error Wire.WlError.CORRUPT) ∧
      (Msg.Message.read misalignedByteBuffer).1 =
        some (Except.error (Lib.DispatchError.IOError Lib.IoErrorKind.InvalidData))) :=
  ⟨rfl, by decide, rfl, rfl, by decide,
    message_size_validation shortSizeStream 262144 rfl (by decide)
      misalignedByteBuffer (misalignedByteBufferAt 4) (misalignedByteBufferAt 8)
      [1, 0, 0, 0] [0, 0, 10, 0] rfl rfl (by decide)⟩

/-- C7: when the header of a frame is buffered but fewer than `size/4`
words are available, `Stream::message` returns no message and leaves the
stream (receive buffer contents and read position included) unchanged;
once pushes complete the body, `Stream::message` yields exactly the
message declared by that header. -/
theorem partial_frame_preserved (s : Wire.Stream) (req obj : Nat) (l : List Nat)
    (hinv : s.rx_msg.Inv)
    (hreq : s.rx_msg.get 1 = some req)
    (hsz : ¬ Wire.hdrSize req < 8)
    (hincomplete : s.rx_msg.len < Wire.hdrSize req / 4)
    (hobj : s.rx_msg.get 0 = some obj)
    (hobj0 : ¬ obj = 0)
    (hroom : s.rx_msg.len + l.length < s.rx_msg.data.length)
    (hcomplete : Wire.hdrSize req / 4 ≤ s.rx_msg.len + l.length) :
    Wire.Stream.message s = (none, s) ∧
    (Wire.Stream.message { s with rx_msg := (s.rx_msg.pushAll l).1 }).1 =
      some (Except.ok { object := obj, opcode := Wire.hdrOpcode req,
                        size := Wire.hdrSize req }) := by
  have h1len : 1 < s.rx_msg.len := Wire.RingBuffer.get_some_lt hreq
  constructor
  · simp only [Wire.Stream.message, hreq]
    rw [if_neg hsz, if_pos hincomplete]
  · obtain ⟨-, hinv1, hlen1, habs1, -⟩ := Wire.RingBuffer.pushAll_spec l hinv hroom
    have hget1 : (s.rx_msg.pushAll l).1.get 1 = some req := by
      rw [Wire.RingBuffer.get_eq_absQ hinv1, habs1,
        List.getElem?_append_left (by rw [Wire.RingBuffer.absQ_length]; exact h1len),
        ← Wire.RingBuffer.get_eq_absQ hinv]
      exact hreq
    have hget0 : (s.rx_msg.pushAll l).1.get 0 = some obj := by
      rw [Wire.RingBuffer.get_eq_absQ hinv1, habs1,
        List.getElem?_append_left (by rw [Wire.RingBuffer.absQ_length]; omega),
        ← Wire.RingBuffer.get_eq_absQ hinv]
      exact hobj
    have hlen2 : ¬ (s.rx_msg.pushAll l).1.len < Wire.hdrSize req / 4 := by
      rw [hlen1]
      omega
    exact Wire.stream_message_parses _ req obj hinv1 hget1 hsz hlen2 hget0 hobj0

/-- C7 witness: a frame for object 1 with opcode 5 and size 12 whose body
word arrives only after the header. -/
theorem partial_frame_preserved_witness :
    partialFrameStream.rx_msg.Inv ∧
    partialFrameStream.rx_msg.get 1 = some 786437 ∧
    ¬ Wire.hdrSize 786437 < 8 ∧
    partialFrameStream.rx_msg.len < Wire.hdrSize 786437 / 4 ∧
    partialFrameStream.rx_msg.get 0 = some 1 ∧
    ¬ (1 : Nat) = 0 ∧
    partialFrameStream.rx_msg.len + [7].length < partialFrameStream.rx_msg.data.length ∧
    Wire.hdrSize 786437 / 4 ≤ partialFrameStream.rx_msg.len + [7].length ∧
    (Wire.Stream.message partialFrameStream = (none, partialFrameStream) ∧
      (Wire.Stream.message
        { partialFrameStream with
          rx_msg := (partialFrameStream.rx_msg.pushAll [7]).1 }).1 =
        some (Except.ok { object := 1, opcode := Wire.hdrOpcode 786437,
                          size := Wire.hdrSize 786437 })) :=
  have hinv : partialFrameStream.rx_msg.Inv :=
    ⟨⟨10, by decide⟩, by decide, by decide⟩
  ⟨hinv, rfl, by decide, by decide, rfl, by decide, by decide, by decide,
    partial_frame_preserved partialFrameStream 786437 1 [7] hinv rfl (by decide)
      (by decide) rfl (by decide) (by decide) (by decide)⟩

/-- C8: filling a fresh power-of-two `RingBuffer` with `capacity - 1`
items succeeds (every push returns `None`), draining it by `pop` returns
exactly the pushed items in FIFO order, and one further push returns the
pushed value back and leaves the buffer unchanged. -/
theorem ring_buffer_fifo_order {α : Type} [Inhabited α] (k : Nat) (l : List α)
    (v : α) (hl : l.length = 2 ^ k - 1) :
    ((Wire.RingBuffer.new (2 ^ k) : Wire.RingBuffer α).pushAll l).2 = true ∧
    Wire.RingBuffer.drain
        ((Wire.RingBuffer.new (2 ^ k) : Wire.RingBuffer α).pushAll l).1.len
        ((Wire.RingBuffer.new (2 ^ k) : Wire.RingBuffer α).pushAll l).1 = l ∧
    ((Wire.RingBuffer.new (2 ^ k) : Wire.RingBuffer α).pushAll l).1.push v =
      (some v, ((Wire.RingBuffer.new (2 ^ k) : Wire.RingBuffer α).pushAll l).1) := by
  have hC : (0 : Nat) < 2 ^ k := pow_pos (by norm_num) k
  have hcap0 : (Wire.RingBuffer.new (2 ^ k) : Wire.RingBuffer α).data.length = 2 ^ k := by
    simp [Wire.RingBuffer.new]
  have hinv0 : (Wire.RingBuffer.new (2 ^ k) : Wire.RingBuffer α).Inv := by
    refine ⟨⟨k, hcap0⟩, ?_, ?_⟩ <;> (rw [hcap0]; exact hC)
  have hlen0 : (Wire.RingBuffer.new (2 ^ k) : Wire.RingBuffer α).len = 0 := rfl
  have habs0 : (Wire.RingBuffer.new (2 ^ k) : Wire.RingBuffer α).absQ = [] := by
    simp [Wire.RingBuffer.absQ, hlen0]
  have hroom : (Wire.RingBuffer.new (2 ^ k) : Wire.RingBuffer α).len + l.length <
      (Wire.RingBuffer.new (2 ^ k) : Wire.RingBuffer α).data.length := by
    rw [hlen0, hl, hcap0]
    omega
  obtain ⟨hall, hinv, hlen, habs, hcap⟩ :=
    Wire.RingBuffer.pushAll_spec l hinv0 hroom
  refine ⟨hall, ?_, ?_⟩
  · rw [Wire.RingBuffer.drain_absQ hinv, habs, habs0]
    rfl
  · apply Wire.RingBuffer.push_full hinv
    rw [hlen, hlen0, hcap, hcap0, hl]
    omega

/-- C8 witness: capacity 4, the three items 10, 20, 30, and a rejected
fourth push of 42. -/
theorem ring_buffer_fifo_order_witness :
    ([10, 20, 30] : List Nat).length = 2 ^ 2 - 1 ∧
    (((Wire.RingBuffer.new (2 ^ 2) : Wire.RingBuffer Nat).pushAll [10, 20, 30]).2 = true ∧
     Wire.RingBuffer.drain
        ((Wire.RingBuffer.new (2 ^ 2) : Wire.RingBuffer Nat).pushAll [10, 20, 30]).1.len
        ((Wire.RingBuffer.new (2 ^ 2) : Wire.RingBuffer Nat).pushAll [10, 20, 30]).1 =
        [10, 20, 30] ∧
     ((Wire.RingBuffer.new (2 ^ 2) : Wire.RingBuffer Nat).pushAll [10, 20, 30]).1.push 42 =
      (some 42,
        ((Wire.RingBuffer.new (2 ^ 2) : Wire.RingBuffer Nat).pushAll [10, 20, 30]).1)) :=
  ⟨by decide, ring_buffer_fifo_order 2 [10, 20, 30] 42 (by decide)⟩

/-- C10: `is_full` and `is_empty` have the same value in every state
(both compare `front` with `back`); in particular a fresh buffer is
"full", and a buffer of capacity at least 2 holding its maximum of
`capacity - 1` items is not "full". -/
theorem is_full_matches_is_empty {α : Type} [Inhabited α]
    (rb : Wire.RingBuffer α) (capacity : Nat) :
    rb.is_full = rb.is_empty ∧
    (Wire.RingBuffer.new capacity : Wire.RingBuffer α).is_full = true ∧
    (2 ≤ rb.data.length → rb.len = rb.data.length - 1 → rb.is_full = false) := by
  refine ⟨rfl, rfl, ?_⟩
  intro hcap hlen
  have hne : rb.front ≠ rb.back := by
    intro hcontra
    unfold Wire.RingBuffer.len at hlen
    rw [hcontra] at hlen
    simp at hlen
    omega
  simp [Wire.RingBuffer.is_full, hne]

/-- C10 witness: a capacity-2 buffer holding one item. -/
theorem is_full_matches_is_empty_witness :
    oneItemRb.is_full = oneItemRb.is_empty ∧
    (Wire.RingBuffer.new 4 : Wire.RingBuffer Nat).is_full = true ∧
    2 ≤ oneItemRb.data.length ∧ oneItemRb.len = oneItemRb.data.length - 1 ∧
    oneItemRb.is_full = false :=
  have h := is_full_matches_is_empty oneItemRb 4
  ⟨h.1, h.2.1, by decide, by decide, h.2.2 (by decide) (by decide)⟩
